import Mathlib

/-!
Verification of the scanner character-device driver (NewScanner.c is the live
driver; Scanner.c is a dead variant that references a lock field its own
struct does not declare). Bytes are modelled as Char values; the payloads in
scope are NUL-free text, so the strlen bound of the C code coincides with the
list length. Pointers into kmalloc allocations are modelled as an allocation
id plus an offset, and a device state records which allocation currently
backs the shared data together with the ids already freed.
-/

namespace Scanner

/-- The strchr membership test used by scanner_read on the separator string. -/
def isSep (seps : List Char) (c : Char) : Bool := seps.contains c

/-- Length of the run of leading separator bytes: the first while loop of
scanner_read (skip leading separators), viewed on the suffix of the data that
starts at the cursor. -/
def sepSkip (seps : List Char) : List Char → Nat
  | [] => 0
  | c :: l => if isSep seps c then sepSkip seps l + 1 else 0

/-- Length of the run of leading non-separator bytes: the second while loop of
scanner_read (advance token_end while not a separator). -/
def tokSpan (seps : List Char) : List Char → Nat
  | [] => 0
  | c :: l => if isSep seps c then 0 else tokSpan seps l + 1

/-- Final value of the token_start pointer of scanner_read, as an offset: the
cursor position after skipping the leading separators. -/
def skipSeps (seps data : List Char) (pos : Nat) : Nat :=
  pos + sepSkip seps (data.drop pos)

/-- Final value of the token_end pointer of scanner_read, as an offset: the
position after the maximal run of non-separator bytes. -/
def scanEnd (seps data : List Char) (pos : Nat) : Nat :=
  pos + tokSpan seps (data.drop pos)

/-- The tokenizer core of scanner_read without the count truncation: the bytes
of the next token and the new cursor position (token_end). A result with no
bytes is what the read interface reports as end of stream (return value 0). -/
def next_token (seps data : List Char) (pos : Nat) : List Char × Nat :=
  if data.length ≤ pos then ([], pos)
  else
    let ts := skipSeps seps data pos
    let te := scanEnd seps data ts
    ((data.drop ts).take (te - ts), te)

/-- scanner_read of NewScanner.c on a given data buffer: the guard
token_start at or past data_end returns zero bytes with the cursor untouched;
otherwise the leading separators are skipped, token_end is computed, the
delivered bytes are the first min(token_len, count) bytes of the token, and
the cursor is set to token_end (the full token end, independent of count). -/
def scanner_read (seps data : List Char) (pos count : Nat) : List Char × Nat :=
  if data.length ≤ pos then ([], pos)
  else
    let ts := skipSeps seps data pos
    let te := scanEnd seps data ts
    ((data.drop ts).take (min (te - ts) count), te)

/-- The default separator string set by scanner_init: space, tab, newline,
carriage return, form feed, vertical tab. -/
def defaultSeps : List Char := [' ', '\t', '\n', '\r', '\x0c', '\x0b']

theorem sepSkip_le (seps : List Char) (l : List Char) : sepSkip seps l ≤ l.length := by
  induction l with
  | nil => simp [sepSkip]
  | cons c l ih =>
    simp only [sepSkip, List.length_cons]
    split <;> omega

theorem tokSpan_le (seps : List Char) (l : List Char) : tokSpan seps l ≤ l.length := by
  induction l with
  | nil => simp [tokSpan]
  | cons c l ih =>
    simp only [tokSpan, List.length_cons]
    split <;> omega

theorem drop_sepSkip (seps : List Char) (l : List Char) :
    l.drop (sepSkip seps l) = l.dropWhile (fun c => isSep seps c) := by
  induction l with
  | nil => simp [sepSkip]
  | cons c l ih =>
    by_cases hc : isSep seps c
    · simp [sepSkip, List.dropWhile, hc, ih]
    · simp [sepSkip, List.dropWhile, hc]

theorem take_tokSpan (seps : List Char) (l : List Char) :
    l.take (tokSpan seps l) = l.takeWhile (fun c => !(isSep seps c)) := by
  induction l with
  | nil => simp [tokSpan]
  | cons c l ih =>
    by_cases hc : isSep seps c
    · simp [tokSpan, List.takeWhile, hc]
    · simp [tokSpan, List.takeWhile, hc, ih]

theorem skipSeps_le (seps data : List Char) (pos : Nat) (h : pos ≤ data.length) :
    skipSeps seps data pos ≤ data.length := by
  have h1 := sepSkip_le seps (data.drop pos)
  rw [List.length_drop] at h1
  unfold skipSeps
  omega

theorem scanEnd_le (seps data : List Char) (pos : Nat) (h : pos ≤ data.length) :
    scanEnd seps data pos ≤ data.length := by
  have h1 := tokSpan_le seps (data.drop pos)
  rw [List.length_drop] at h1
  unfold scanEnd
  omega

theorem sepSkip_zero_head (seps : List Char) (c : Char) (l : List Char)
    (h : sepSkip seps (c :: l) = 0) : isSep seps c = false := by
  by_cases hc : isSep seps c
  · simp [sepSkip, hc] at h
  · simpa using hc

theorem scan_progress (seps data : List Char) (pos : Nat) (h : pos < data.length) :
    pos < scanEnd seps data (skipSeps seps data pos) := by
  have hts : pos ≤ skipSeps seps data pos := Nat.le_add_right _ _
  rcases Nat.lt_or_ge pos (skipSeps seps data pos) with hlt | hge
  · exact Nat.lt_of_lt_of_le hlt (Nat.le_add_right _ _)
  · have hp : skipSeps seps data pos = pos := Nat.le_antisymm hge hts
    have h0 : sepSkip seps (data.drop pos) = 0 := by
      unfold skipSeps at hp
      omega
    have hne : data.drop pos ≠ [] := by
      intro hnil
      have hlen := congrArg List.length hnil
      rw [List.length_drop] at hlen
      simp at hlen
      omega
    obtain ⟨c, r, hcr⟩ := List.exists_cons_of_ne_nil hne
    rw [hp]
    unfold scanEnd
    rw [hcr]
    rw [hcr] at h0
    have hc := sepSkip_zero_head seps c r h0
    simp [tokSpan, hc]

theorem head_dropWhile_not_sep (seps : List Char) (l : List Char) (c : Char) (r : List Char)
    (h : l.dropWhile (fun c => isSep seps c) = c :: r) : isSep seps c = false := by
  induction l with
  | nil => simp [List.dropWhile] at h
  | cons a l ih =>
    by_cases ha : isSep seps a
    · rw [List.dropWhile_cons_of_pos (by simpa using ha)] at h
      exact ih h
    · rw [List.dropWhile_cons_of_neg (by simpa using ha)] at h
      cases h
      simpa using ha

/-- One pass of the engine together with the bytes it discards: the skipped
leading separator run, then the token, then the rest of the stream scanned
from token_end. Termination holds because the engine makes strict progress
from any in-bounds position. -/
def scanAll (seps data : List Char) (pos : Nat) : List Char :=
  if h : pos < data.length then
    (data.drop pos).take (skipSeps seps data pos - pos)
      ++ (next_token seps data pos).1
      ++ scanAll seps data (scanEnd seps data (skipSeps seps data pos))
  else []
termination_by data.length - pos
decreasing_by
  have := scan_progress seps data pos h
  omega

theorem scanAll_eq_drop (seps data : List Char) :
    ∀ m pos, data.length - pos ≤ m → scanAll seps data pos = data.drop pos := by
  intro m
  induction m with
  | zero =>
    intro pos hm
    rw [scanAll, dif_neg (by omega)]
    exact (List.drop_eq_nil_of_le (by omega)).symm
  | succ m ih =>
    intro pos hm
    by_cases hp : pos < data.length
    · rw [scanAll, dif_pos hp]
      have hts : pos ≤ skipSeps seps data pos := Nat.le_add_right _ _
      have hte : skipSeps seps data pos ≤ scanEnd seps data (skipSeps seps data pos) :=
        Nat.le_add_right _ _
      have hprog := scan_progress seps data pos hp
      rw [ih (scanEnd seps data (skipSeps seps data pos)) (by omega)]
      rw [next_token, if_neg (by omega)]
      simp only
      set ts := skipSeps seps data pos with hts_def
      set te := scanEnd seps data ts with hte_def
      have h1 := List.drop_take_append_drop data ts (te - ts)
      rw [show ts + (te - ts) = te from by omega] at h1
      have h2 := List.drop_take_append_drop data pos (ts - pos)
      rw [show pos + (ts - pos) = ts from by omega] at h2
      rw [List.append_assoc, h1, h2]
    · rw [scanAll, dif_neg hp]
      exact (List.drop_eq_nil_of_le (by omega)).symm

/-- Claim C5: for every byte sequence and separator set, concatenating in
order every token produced by repeatedly running the tokenizer together with
all separator runs skipped between and around those tokens reconstructs the
byte sequence exactly. -/
theorem c5_roundtrip (seps data : List Char) : scanAll seps data 0 = data := by
  have h := scanAll_eq_drop seps data data.length 0 (by omega)
  simpa using h

/-- Claim C4: the tokenizer of scanner_read first skips exactly the leading
run of separator bytes at the cursor and returns the maximal following run of
non-separator bytes; it returns zero bytes (reported as end of stream by the
read interface) exactly when the skip reaches the end of the buffer, so a
separator run ending the buffer never yields a nonempty or spurious empty
token; and with an empty separator set the whole remaining buffer is the
token and the cursor moves to the end. -/
theorem c4_tokenizer (seps data : List Char) (pos : Nat) (h : pos ≤ data.length) :
    (next_token seps data pos).1
        = ((data.drop pos).dropWhile (fun c => isSep seps c)).takeWhile (fun c => !(isSep seps c))
      ∧ ((next_token seps data pos).1 = [] ↔ skipSeps seps data pos = data.length)
      ∧ (seps = [] → next_token seps data pos = (data.drop pos, data.length)) := by
  have hmain : (next_token seps data pos).1
      = ((data.drop pos).dropWhile (fun c => isSep seps c)).takeWhile
          (fun c => !(isSep seps c)) := by
    by_cases hp : data.length ≤ pos
    · rw [next_token, if_pos hp]
      rw [List.drop_eq_nil_of_le hp]
      simp [List.dropWhile, List.takeWhile]
    · rw [next_token, if_neg hp]
      simp only
      have e0 : scanEnd seps data (skipSeps seps data pos) - skipSeps seps data pos
          = tokSpan seps (data.drop (skipSeps seps data pos)) := by
        unfold scanEnd
        omega
      have e1 : data.drop (skipSeps seps data pos)
          = (data.drop pos).dropWhile (fun c => isSep seps c) := by
        rw [← drop_sepSkip seps (data.drop pos)]
        unfold skipSeps
        rw [List.drop_drop]
      rw [e0, e1, take_tokSpan]
  refine ⟨hmain, ⟨?_, ?_⟩, ?_⟩
  · -- token empty → the skip reached the end of the buffer
    intro hnil
    by_contra hne
    have hlt : skipSeps seps data pos < data.length := by
      have := skipSeps_le seps data pos h
      omega
    have hdne : data.drop (skipSeps seps data pos) ≠ [] := by
      intro hx
      have := congrArg List.length hx
      rw [List.length_drop] at this
      simp at this
      omega
    obtain ⟨c, r, hcr⟩ := List.exists_cons_of_ne_nil hdne
    have e1 : data.drop (skipSeps seps data pos)
        = (data.drop pos).dropWhile (fun c => isSep seps c) := by
      rw [← drop_sepSkip seps (data.drop pos)]
      unfold skipSeps
      rw [List.drop_drop]
    have hc : isSep seps c = false := by
      apply head_dropWhile_not_sep seps (data.drop pos) c r
      rw [← e1, hcr]
    rw [hmain, ← e1, hcr] at hnil
    simp [List.takeWhile, hc] at hnil
  · -- skip at the end of the buffer → zero bytes returned
    intro hend
    rw [hmain]
    have e1 : data.drop (skipSeps seps data pos)
        = (data.drop pos).dropWhile (fun c => isSep seps c) := by
      rw [← drop_sepSkip seps (data.drop pos)]
      unfold skipSeps
      rw [List.drop_drop]
    rw [← e1, hend, List.drop_length]
    simp [List.takeWhile]
  · -- empty separator set: the whole remaining buffer is one token
    intro hsep
    subst hsep
    have hfalse : ∀ c, isSep [] c = false := by
      intro c
      simp [isSep, List.contains]
    have hskip : ∀ l, sepSkip [] l = 0 := by
      intro l
      cases l with
      | nil => simp [sepSkip]
      | cons c r => simp [sepSkip, hfalse]
    have hspan : ∀ l : List Char, tokSpan [] l = l.length := by
      intro l
      induction l with
      | nil => simp [tokSpan]
      | cons c r ih => simp [tokSpan, hfalse, ih]
    by_cases hp : data.length ≤ pos
    · rw [next_token, if_pos hp]
      have hpe : pos = data.length := by omega
      rw [List.drop_eq_nil_of_le hp, hpe]
    · rw [next_token, if_neg hp]
      simp only
      unfold skipSeps scanEnd
      rw [hskip, hspan]
      simp only [Nat.add_zero]
      rw [List.length_drop]
      simp only [Prod.mk.injEq]
      constructor
      · have e3 : pos + (data.length - pos) - pos = (data.drop pos).length := by
          rw [List.length_drop]
          omega
        rw [e3, List.take_length]
      · omega

/-- Claim C2 as stated is false of scanner_read: with separator space, buffer
a b space c d and a one-byte read from position 0, the delivered byte is a
but the cursor jumps to 2, the end of the full token, so the following read
returns the next token c d instead of the remainder b. -/
theorem c2_counterexample :
    scanner_read [' '] ['a', 'b', ' ', 'c', 'd'] 0 1 = (['a'], 2)
      ∧ (scanner_read [' '] ['a', 'b', ' ', 'c', 'd'] 2 10).1 = ['c', 'd']
      ∧ (scanner_read [' '] ['a', 'b', ' ', 'c', 'd'] 2 10).1 ≠ ['b'] := by decide

/-- Claim C2 amended: when the requested count is smaller than the token, the
read delivers exactly count bytes, which form the leading part of the token,
but the cursor advances to token_end, past the entire token, so the
immediately following read starts at the next token and the undelivered tail
of the truncated token is skipped. -/
theorem c2_truncation (seps data : List Char) (pos count : Nat)
    (hp : pos < data.length)
    (hc : count < scanEnd seps data (skipSeps seps data pos) - skipSeps seps data pos) :
    (scanner_read seps data pos count).1.length = count
      ∧ (scanner_read seps data pos count).1 = (next_token seps data pos).1.take count
      ∧ (scanner_read seps data pos count).2
          = scanEnd seps data (skipSeps seps data pos) := by
  have hple : pos ≤ data.length := Nat.le_of_lt hp
  have hts := skipSeps_le seps data pos hple
  have hte := scanEnd_le seps data (skipSeps seps data pos) hts
  rw [scanner_read, if_neg (by omega), next_token, if_neg (by omega)]
  simp only
  set ts := skipSeps seps data pos with hts_def
  set te := scanEnd seps data ts with hte_def
  have hmin : min (te - ts) count = count := Nat.min_eq_right (Nat.le_of_lt hc)
  refine ⟨?_, ?_, ?_⟩
  · rw [hmin, List.length_take, List.length_drop]
    omega
  · rw [hmin, List.take_take]
    rw [Nat.min_eq_left (Nat.le_of_lt hc)]
  · first
    | rfl
    | trivial

theorem c2_truncation_witness :
    (0 < (['a', 'b', ' ', 'c'] : List Char).length
        ∧ 1 < scanEnd [' '] ['a', 'b', ' ', 'c'] (skipSeps [' '] ['a', 'b', ' ', 'c'] 0)
            - skipSeps [' '] ['a', 'b', ' ', 'c'] 0)
      ∧ ((scanner_read [' '] ['a', 'b', ' ', 'c'] 0 1).1.length = 1
        ∧ (scanner_read [' '] ['a', 'b', ' ', 'c'] 0 1).1
            = (next_token [' '] ['a', 'b', ' ', 'c'] 0).1.take 1
        ∧ (scanner_read [' '] ['a', 'b', ' ', 'c'] 0 1).2
            = scanEnd [' '] ['a', 'b', ' ', 'c'] (skipSeps [' '] ['a', 'b', ' ', 'c'] 0)) :=
  ⟨⟨by decide, by decide⟩, c2_truncation [' '] ['a', 'b', ' ', 'c'] 0 1 (by decide) (by decide)⟩

/-- Claim C10: on a fixed buffer (between two writes), a read never moves the
cursor backwards and never moves it past the end of the buffer. -/
theorem c10_cursor_monotone (seps data : List Char) (pos count : Nat)
    (h : pos ≤ data.length) :
    pos ≤ (scanner_read seps data pos count).2
      ∧ (scanner_read seps data pos count).2 ≤ data.length := by
  by_cases hp : data.length ≤ pos
  · rw [scanner_read, if_pos hp]
    exact ⟨Nat.le_refl _, h⟩
  · rw [scanner_read, if_neg hp]
    simp only
    have h1 : pos ≤ skipSeps seps data pos := Nat.le_add_right _ _
    have h2 : skipSeps seps data pos ≤ scanEnd seps data (skipSeps seps data pos) :=
      Nat.le_add_right _ _
    have h3 := scanEnd_le seps data (skipSeps seps data pos) (skipSeps_le seps data pos h)
    exact ⟨by omega, h3⟩

theorem c10_cursor_monotone_witness :
    (0 ≤ (['a', ' ', 'b'] : List Char).length)
      ∧ (0 ≤ (scanner_read [' '] ['a', ' ', 'b'] 0 5).2
        ∧ (scanner_read [' '] ['a', ' ', 'b'] 0 5).2 ≤ (['a', ' ', 'b'] : List Char).length) :=
  ⟨by decide, c10_cursor_monotone [' '] ['a', ' ', 'b'] 0 5 (by decide)⟩

theorem c4_tokenizer_witness :
    (0 ≤ (['a', ' ', 'b'] : List Char).length)
      ∧ ((next_token [' '] ['a', ' ', 'b'] 0).1
            = (((['a', ' ', 'b'] : List Char).drop 0).dropWhile
                  (fun c => isSep [' '] c)).takeWhile (fun c => !(isSep [' '] c))
        ∧ ((next_token [' '] ['a', ' ', 'b'] 0).1 = []
            ↔ skipSeps [' '] ['a', ' ', 'b'] 0 = (['a', ' ', 'b'] : List Char).length)
        ∧ ([' '] = ([] : List Char)
            → next_token [' '] ['a', ' ', 'b'] 0
                = ((['a', ' ', 'b'] : List Char).drop 0, (['a', ' ', 'b'] : List Char).length))) :=
  ⟨by decide, c4_tokenizer [' '] ['a', ' ', 'b'] 0 (by decide)⟩

/-- A pointer into a kmalloc allocation: the id of the allocation and a byte
offset into it. NULL is modelled as the absence of a pointer (Option). -/
structure Ptr where
  buf : Nat
  off : Nat
deriving DecidableEq, Repr

/-- The per-open-file state of NewScanner.c (struct ScannerFile): the cursor
pointer current_token, the write-only field next_char, and the per-file
separator string. -/
structure ScannerFile where
  current_token : Option Ptr
  next_char : Option Ptr
  separators : List Char
deriving DecidableEq, Repr

/-- The process-wide state of NewScanner.c (struct ScannerDevice) together
with the allocator history needed to observe use-after-free: the device
separator string, the current data allocation (id and contents) or NULL, the
ids of allocations already passed to kfree, and the next fresh id. -/
structure DeviceState where
  separators : List Char
  data : Option (Nat × List Char)
  freed : List Nat
  nextId : Nat
deriving DecidableEq, Repr

/-- The device state right after scanner_init: default separators, no data. -/
def initDevice : DeviceState :=
  { separators := defaultSeps, data := none, freed := [], nextId := 0 }

/-- scanner_open of NewScanner.c: current_token is initialized to NULL,
next_char is set to the device data pointer (and never used afterwards), and
the separators are copied from the device separator string. -/
def scanner_open (st : DeviceState) : ScannerFile :=
  { current_token := none
    next_char := st.data.map (fun p => { buf := p.1, off := 0 })
    separators := st.separators }

/-- Outcome of a read call: ok with the delivered bytes (zero bytes is what
the read interface reports as end of stream), or undef when the C execution
compares or dereferences a NULL pointer or a pointer into a freed
allocation. -/
inductive ReadOutcome where
  | ok : List Char → ReadOutcome
  | undef : ReadOutcome
deriving DecidableEq, Repr

/-- scanner_read of NewScanner.c over the device state: strlen on a NULL data
buffer, a NULL cursor reaching the skip loop, and a cursor pointing into an
allocation other than the current one are all undefined executions and are
flagged undef with the file left as is; a cursor into the live allocation
runs the in-bounds tokenizer and stores token_end back into the cursor. -/
def scanner_read_m (st : DeviceState) (f : ScannerFile) (count : Nat) :
    ReadOutcome × ScannerFile :=
  match st.data with
  | none => (.undef, f)
  | some (id, bytes) =>
    match f.current_token with
    | none => (.undef, f)
    | some p =>
      if p.buf = id then
        let r := scanner_read f.separators bytes p.off count
        (.ok r.1, { f with current_token := some { buf := id, off := r.2 } })
      else (.undef, f)

/-- Outcome of a write call: ok with the byte count, or the two error paths
of scanner_write. -/
inductive WriteOutcome where
  | ok : Nat → WriteOutcome
  | enomem : WriteOutcome
  | efault : WriteOutcome
deriving DecidableEq, Repr

/-- scanner_write of NewScanner.c: the old device data is freed first and the
data field set to NULL; then a new allocation is attempted (allocOk models
kmalloc) and the payload copied from user space (copyOk models
copy_from_user). Only on full success does the device point at the new
allocation and only the calling file has its cursor set to the start of the
new allocation. -/
def scanner_write_m (st : DeviceState) (f : ScannerFile) (bytes : List Char)
    (allocOk copyOk : Bool) : WriteOutcome × DeviceState × ScannerFile :=
  let st1 := match st.data with
    | some (id, _) => { st with data := none, freed := id :: st.freed }
    | none => st
  if allocOk = false then (.enomem, st1, f)
  else
    let id := st1.nextId
    if copyOk = false then
      (.efault, { st1 with freed := id :: st1.freed, nextId := id + 1 }, f)
    else
      (.ok bytes.length, { st1 with data := some (id, bytes), nextId := id + 1 },
       { f with current_token := some { buf := id, off := 0 } })

/-- The SCANNER_SET_SEPARATORS branch of scanner_ioctl: allocOk models the
kmalloc of the staging buffer (failure returns ENOMEM with the file
untouched); delivered models copy_from_user (none is a fault: the staging
buffer is freed and the file keeps its previous separators); on success the
old separator string is freed and replaced by the delivered bytes. -/
def scanner_ioctl_m (f : ScannerFile) (allocOk : Bool)
    (delivered : Option (List Char)) : Int × ScannerFile :=
  if allocOk = false then (-12, f)
  else
    match delivered with
    | none => (-14, f)
    | some s => (0, { f with separators := s })

/-- scanner_ioctl applied to handle i of a table of open files: only the
entry at i is rewritten, with the result of the per-file ioctl. -/
def sys_ioctl (hs : List ScannerFile) (i : Nat) (allocOk : Bool)
    (delivered : Option (List Char)) : Int × List ScannerFile :=
  match hs.get? i with
  | none => (-9, hs)
  | some f =>
    let r := scanner_ioctl_m f allocOk delivered
    (r.1, hs.set i r.2)

theorem get?_set_ne {α : Type} :
    ∀ (l : List α) (i j : Nat) (a : α), j ≠ i → (l.set i a).get? j = l.get? j := by
  intro l
  induction l with
  | nil =>
    intro i j a h
    simp [List.set]
  | cons x xs ih =>
    intro i j a h
    cases i with
    | zero =>
      cases j with
      | zero => exact absurd rfl h
      | succ j => simp [List.set]
    | succ i =>
      cases j with
      | zero => simp [List.set]
      | succ j =>
        simp only [List.set, List.get?]
        exact ih i j a (fun he => h (by rw [he]))

theorem set_get?_self {α : Type} :
    ∀ (l : List α) (i : Nat) (a : α), l.get? i = some a → l.set i a = l := by
  intro l
  induction l with
  | nil =>
    intro i a h
    simp [List.set]
  | cons x xs ih =>
    intro i a h
    cases i with
    | zero =>
      simp only [List.get?] at h
      cases h
      simp [List.set]
    | succ i =>
      simp only [List.get?] at h
      simp [List.set, ih i a h]

theorem get?_set_self {α : Type} :
    ∀ (l : List α) (i : Nat) (a b : α), l.get? i = some b → (l.set i a).get? i = some a := by
  intro l
  induction l with
  | nil =>
    intro i a b h
    simp [List.get?] at h
  | cons x xs ih =>
    intro i a b h
    cases i with
    | zero => simp [List.set]
    | succ i =>
      simp only [List.get?] at h
      simp only [List.set, List.get?]
      exact ih i a b h

/-- Two-handle scenario: the device after init, a first open, a first write. -/
def w1 := scanner_write_m initDevice (scanner_open initDevice) ['a', ' ', 'b'] true true

/-- A second handle opened after the first write. -/
def h2a : ScannerFile := scanner_open w1.2.1

/-- The second handle writes, which frees the allocation the first handle
still points into. -/
def w2 := scanner_write_m w1.2.1 h2a ['c', ' ', 'd'] true true

/-- Claim C1: NewScanner.c has no generation counter at all. After the second
handle writes, the first handle still holds a cursor into allocation 0, which
is on the freed list while the device data is allocation 1; its next read is
the undefined outcome, because the C code compares and dereferences the
dangling pointer against the new buffer, and its cursor is not reset to the
new buffer. The claimed detect-and-reset behavior does not exist in the
code. -/
theorem c1_stale_read_undef :
    w1.2.2.current_token = some { buf := 0, off := 0 }
      ∧ (0 : Nat) ∈ w2.2.1.freed
      ∧ w2.2.1.data = some (1, ['c', ' ', 'd'])
      ∧ scanner_read_m w2.2.1 w1.2.2 100 = (.undef, w1.2.2) := by decide

/-- Claim C8: scanner_open copies the default separator string (space, tab,
newline, carriage return, form feed, vertical tab) into the new file, but it
initializes current_token to NULL and stores the buffer start only into the
never-read field next_char; consequently the first read from a freshly opened
handle is the undefined outcome (a NULL dereference in the skip loop) instead
of the first token of the buffer present at open. -/
theorem c8_open_state :
    h2a.separators = defaultSeps
      ∧ h2a.current_token = none
      ∧ h2a.next_char = some { buf := 0, off := 0 }
      ∧ (scanner_read_m w1.2.1 h2a 100).1 = .undef := by decide

/-- Device and file used as a concrete pre-state for the write-failure
claims: allocation 0 holds the byte x and the file cursor points at it. -/
def stX : DeviceState :=
  { separators := defaultSeps, data := some (0, ['x']), freed := [], nextId := 1 }

/-- File state matching stX. -/
def fX : ScannerFile :=
  { current_token := some { buf := 0, off := 0 }, next_char := none
    separators := defaultSeps }

/-- Claim C3 as stated is false of scanner_write: the old payload is freed
before the new allocation is attempted, so an allocation failure leaves the
device with no data at all rather than with the previous contents. -/
theorem c3_counterexample :
    (scanner_write_m stX fX ['y'] false true).1 = .enomem
      ∧ (scanner_write_m stX fX ['y'] false true).2.1.data = none
      ∧ stX.data = some (0, ['x'])
      ∧ (scanner_write_m stX fX ['y'] false true).2.1.data ≠ stX.data := by decide

/-- Claim C3 amended: on any failing write (allocation failure or partial
copy) the previous payload has already been destroyed — the device data field
is left NULL and, when a previous allocation existed, its id is on the freed
list — while the calling file, in particular its cursor, is unchanged. -/
theorem c3_write_failure (st : DeviceState) (f : ScannerFile) (bytes : List Char)
    (allocOk copyOk : Bool)
    (hfail : (scanner_write_m st f bytes allocOk copyOk).1 ≠ .ok bytes.length) :
    (scanner_write_m st f bytes allocOk copyOk).2.1.data = none
      ∧ (scanner_write_m st f bytes allocOk copyOk).2.2 = f
      ∧ (∀ id old, st.data = some (id, old)
          → id ∈ (scanner_write_m st f bytes allocOk copyOk).2.1.freed) := by
  cases allocOk with
  | false =>
    cases hd : st.data with
    | none => simp [scanner_write_m, hd]
    | some p =>
      simp [scanner_write_m, hd]
      intro id old he
      subst he
      exact Or.inl rfl
  | true =>
    cases copyOk with
    | false =>
      cases hd : st.data with
      | none => simp [scanner_write_m, hd]
      | some p =>
        simp [scanner_write_m, hd]
        intro id old he
        subst he
        exact Or.inr (Or.inl rfl)
    | true =>
      exfalso
      apply hfail
      cases hd : st.data with
      | none => simp [scanner_write_m, hd]
      | some p => simp [scanner_write_m, hd]

theorem c3_write_failure_witness :
    ((scanner_write_m stX fX ['y'] false true).1 ≠ .ok (['y'] : List Char).length)
      ∧ ((scanner_write_m stX fX ['y'] false true).2.1.data = none
        ∧ (scanner_write_m stX fX ['y'] false true).2.2 = fX
        ∧ (∀ id old, stX.data = some (id, old)
            → id ∈ (scanner_write_m stX fX ['y'] false true).2.1.freed)) :=
  ⟨by decide, c3_write_failure stX fX ['y'] false true (by decide)⟩

/-- Claim C7: the separator ioctl touches exactly the entry of the calling
handle in the table of open files; every other entry is unchanged; if the
staging allocation or the copy from user space fails, the whole table —
including the calling entry and so its previous separator string — is
unchanged; and in every case the calling handle keeps its cursor. -/
theorem c7_reconfigure (hs : List ScannerFile) (i j : Nat) (allocOk : Bool)
    (delivered : Option (List Char)) :
    (j ≠ i → (sys_ioctl hs i allocOk delivered).2.get? j = hs.get? j)
      ∧ ((allocOk = false ∨ delivered = none) → (sys_ioctl hs i allocOk delivered).2 = hs)
      ∧ ((sys_ioctl hs i allocOk delivered).2.get? i).map ScannerFile.current_token
          = (hs.get? i).map ScannerFile.current_token := by
  have hone : ∀ g : ScannerFile, (scanner_ioctl_m g allocOk delivered).2.current_token
      = g.current_token := by
    intro g
    unfold scanner_ioctl_m
    cases allocOk with
    | false => rfl
    | true =>
      cases delivered with
      | none => rfl
      | some s => rfl
  cases hget : hs.get? i with
  | none =>
    have heq : sys_ioctl hs i allocOk delivered = (-9, hs) := by
      unfold sys_ioctl
      rw [hget]
    rw [heq]
    exact ⟨fun _ => rfl, fun _ => rfl, by rw [hget]⟩
  | some f =>
    have heq : sys_ioctl hs i allocOk delivered
        = ((scanner_ioctl_m f allocOk delivered).1,
           hs.set i (scanner_ioctl_m f allocOk delivered).2) := by
      unfold sys_ioctl
      rw [hget]
    rw [heq]
    refine ⟨?_, ?_, ?_⟩
    · intro hne
      exact get?_set_ne hs i j _ hne
    · intro hfail
      have hsame : (scanner_ioctl_m f allocOk delivered).2 = f := by
        unfold scanner_ioctl_m
        rcases hfail with hA | hD
        · rw [hA]
          rfl
        · cases allocOk with
          | false => rfl
          | true =>
            rw [hD]
            rfl
      show hs.set i (scanner_ioctl_m f allocOk delivered).2 = hs
      rw [hsame]
      exact set_get?_self hs i f hget
    · show ((hs.set i (scanner_ioctl_m f allocOk delivered).2).get? i).map
          ScannerFile.current_token = (some f).map ScannerFile.current_token
      rw [get?_set_self hs i _ f hget]
      simp [hone f]

theorem c7_reconfigure_witness :
    (sys_ioctl [fX, h2a] 0 false none).2.get? 1 = [fX, h2a].get? 1
      ∧ (sys_ioctl [fX, h2a] 0 false none).2 = [fX, h2a]
      ∧ ((sys_ioctl [fX, h2a] 0 false none).2.get? 0).map ScannerFile.current_token
          = ([fX, h2a].get? 0).map ScannerFile.current_token :=
  ⟨(c7_reconfigure [fX, h2a] 0 1 false none).1 (by decide),
   (c7_reconfigure [fX, h2a] 0 1 false none).2.1 (Or.inl rfl),
   (c7_reconfigure [fX, h2a] 0 1 false none).2.2⟩

/-- The fifteen test bytes of TestScanner.c. -/
def testStr : List Char :=
  ['T', 'h', 'i', 's', ' ', 'i', 's', ' ', 'a', ' ', 't', 'e', 's', 't', '.']

/-- The device and file after writing the test buffer through a fresh open. -/
def w6 := scanner_write_m initDevice (scanner_open initDevice) testStr true true

/-- n successive reads of the given byte budget from one file. -/
def readTokens (st : DeviceState) (count : Nat) : ScannerFile → Nat → List ReadOutcome
  | _, 0 => []
  | f, Nat.succ n =>
    (scanner_read_m st f count).1 :: readTokens st count (scanner_read_m st f count).2 n

/-- Claim C6: writing the fifteen byte test buffer and reading repeatedly with
the default separator set yields the tokens This, is, a, test. in order and
then a zero byte read, the end-of-stream report. -/
theorem c6_test_tokens :
    w6.1 = .ok 15
      ∧ readTokens w6.2.1 1023 w6.2.2 5
          = [.ok ['T', 'h', 'i', 's'], .ok ['i', 's'], .ok ['a'],
             .ok ['t', 'e', 's', 't', '.'], .ok []] := by decide
